import Mathlib

/-!
# Verification of the `foundation` supervisor core

A shallow embedding, in Lean, of the parts of the `go-foundation`
repository that the verified properties talk about: the fault taxonomy
(`errors.go`), the per-node event-hook registry (`event.go`), the node
lifecycle operations of the `f` type (`Parallel`, `Error`, `run`, `stop`,
`runEventHooks`), the process-level `Run` orchestration (fault-log loop,
finalisers, exit code), the `tick` package's once-guarded hook registry,
and the `tick` backoff arithmetic (`exponentBase2`, `ExponentialBackoff`).

Go channels, goroutines and mutexes are modelled by explicit state and by
event traces: every operation is translated to a pure Lean function on a
state that mirrors the Go struct fields it reads and writes, and where the
claim is about ordering of observable actions the function also produces
the list of those actions in execution order.
-/

namespace Foundation

/-! ## Fault taxonomy (errors.go)

`RuntimeError`, `CleanupError` and `PanicError` each carry a `Cause`.
In the code paths under verification, `PanicError` only ever appears
wrapping a recovered payload that is not itself an `error`; error payloads
are stored directly as the cause. Go `error` values and non-error panic
payloads are both represented by opaque `Nat` tokens. -/

/-- A payload recovered from a Go `panic`: either a value satisfying the
`error` interface, or an arbitrary non-error value. -/
inductive PanicPayload where
  | err (e : Nat)
  | val (v : Nat)
deriving DecidableEq, Repr

/-- The `Cause` stored inside a `RuntimeError` or `CleanupError`: either a
recovered `error` directly, or a non-error payload wrapped in
`PanicError{Cause: v}`. -/
inductive FaultCause where
  | err (e : Nat)
  | panicError (v : Nat)
deriving DecidableEq, Repr

/-- A typed fault value pushed onto a node's error channel:
`RuntimeError` from a runner body, `CleanupError` from an event hook. -/
inductive Fault where
  | runtimeError (cause : FaultCause)
  | cleanupError (cause : FaultCause)
deriving DecidableEq, Repr

/-! ## Event-hook registry (event.go)

`eventHooks` keeps a map from event kind (`doneEvent` / `stopEvent`) to an
ordered slice of callbacks; `add` appends under the write lock, `get`
returns the slice. A callback is modelled by a `HookSpec`: an identifier
(so that invocation order is observable) plus the behaviour of its body
(whether it panics, and with what payload). -/

/-- The two event kinds of `event.go` (`doneEvent`, `stopEvent`). -/
inductive EventKind where
  | doneEvent
  | stopEvent
deriving DecidableEq, Repr

/-- A registered callback: `id` identifies it in traces, `panics` is the
behaviour of its body when invoked (`none` = returns normally,
`some p` = panics with payload `p`). -/
structure HookSpec where
  id : Nat
  panics : Option PanicPayload
deriving DecidableEq, Repr

/-- The `eventHooks` registry: one ordered list per event kind (the Go
`map[eventHook][]EventHookFunc`, with absent keys read as the empty
slice). -/
structure EventHooksMap where
  doneList : List HookSpec
  stopList : List HookSpec
deriving DecidableEq, Repr

/-- Model of `newEventHooks()`: both lists start empty. -/
def newEventHooks : EventHooksMap := ⟨[], []⟩

/-- Model of `eventHooks.get(event)`. -/
def EventHooksMap.get (e : EventHooksMap) : EventKind → List HookSpec
  | .doneEvent => e.doneList
  | .stopEvent => e.stopList

/-- Model of `eventHooks.add(event, fns...)`: appends `fns` to the slice for
`event`, keeping the other list untouched. -/
def EventHooksMap.add (e : EventHooksMap) (event : EventKind) (fns : List HookSpec) : EventHooksMap :=
  match event with
  | .doneEvent => { e with doneList := e.doneList ++ fns }
  | .stopEvent => { e with stopList := e.stopList ++ fns }

/-- Model of `eventHooks.Done(fns...)` = `add(doneEvent, fns...)`. -/
def EventHooksMap.Done (e : EventHooksMap) (fns : List HookSpec) : EventHooksMap :=
  e.add .doneEvent fns

/-- Model of `eventHooks.Stop(fns...)` = `add(stopEvent, fns...)`. -/
def EventHooksMap.Stop (e : EventHooksMap) (fns : List HookSpec) : EventHooksMap :=
  e.add .stopEvent fns

/-! ## Hook execution (`f.runEventHook`, `f.runEventHooks`)

`runEventHook` invokes one callback under a deferred `recover`: if the
body panics the payload is converted to a `CleanupError` (wrapping a
non-error payload in `PanicError`) and pushed on `f.errC`; either way the
surrounding loop continues. `runEventHooks` ranges over
`slices.Values(f.hooks.get(event))`, i.e. it walks the slice front to
back. The model returns the faults pushed to `errC` in order, and the
trace of hook ids in invocation order. -/

/-- Model of `f.runEventHook(hook)`: the hook is invoked; if it panics, the
recovered payload becomes a `CleanupError` on `errC`. Returns
(faults pushed, trace of invoked hook ids). -/
def runEventHook (hook : HookSpec) : List Fault × List Nat :=
  match hook.panics with
  | none => ([], [hook.id])
  | some (.err e) => ([.cleanupError (.err e)], [hook.id])
  | some (.val v) => ([.cleanupError (.panicError v)], [hook.id])

/-- Model of `f.runEventHooks(event)` restricted to an already-fetched slice:
invokes each hook in slice order, accumulating faults and the invocation
trace. -/
def runEventHooks : List HookSpec → List Fault × List Nat
  | [] => ([], [])
  | h :: rest =>
    let r := runEventHook h
    let rs := runEventHooks rest
    (r.1 ++ rs.1, r.2 ++ rs.2)

/-- The `CleanupError` that `runEventHook` pushes for one hook, if the
hook panics: the payload is the cause, wrapped in `PanicError` when it is
not an `error`. -/
def hookFault (h : HookSpec) : Option Fault :=
  match h.panics with
  | none => none
  | some (.err e) => some (.cleanupError (.err e))
  | some (.val v) => some (.cleanupError (.panicError v))

/-! ## The wrapped runner body (`f.run`, lines 280–314)

`run` launches the runner body inside `wrapped`, whose deferred function
recovers any panic: an `error` payload becomes
`RuntimeError{Cause: err}`, any other payload becomes
`RuntimeError{Cause: PanicError{Cause: r}}`; the fault is pushed on the
child's `errC`. Afterwards (whether or not the body panicked) the signal
channel is closed, `waitC` is closed, and the `done` hooks run via
`runEventHooks(doneEvent)`. The body's behaviour is modelled by its
outcome; the model returns the faults pushed on the child's `errC` in
order, the done-hook invocation trace, and whether the signal channel was
closed. -/

/-- Outcome of a runner body: returns normally, or panics with a payload
(as raised by `f.Error` or by a plain `panic`). -/
inductive BodyOutcome where
  | ok
  | panics (p : PanicPayload)
deriving DecidableEq, Repr

/-- The deferred `recover` conversion in `wrapped`: an `error` payload
becomes a `RuntimeError` with that cause, a non-error payload is wrapped
in `PanicError` first. A normal return pushes nothing. -/
def bodyFaults : BodyOutcome → List Fault
  | .ok => []
  | .panics (.err e) => [.runtimeError (.err e)]
  | .panics (.val v) => [.runtimeError (.panicError v)]

/-- The full deferred epilogue of `wrapped`: recover/convert/push, close
the signal channel, close `waitC`, then run the `done` hooks. Returns
(faults pushed to the child's `errC` in order, done-hook trace,
signal channel closed). -/
def wrappedRun (body : BodyOutcome) (doneHooks : List HookSpec) :
    List Fault × List Nat × Bool :=
  let hs := runEventHooks doneHooks
  (bodyFaults body ++ hs.1, hs.2, true)

/-! ## The node (`f` struct) and its synchronous state operations

The `f` struct's fields that the verified properties read or write:
`name`, `subs` (owned children, append-only), the two hook lists, and the
monotone flags `erred`, `done`, `stopped`. Channels are represented by
the trace events they give rise to (`stopTrace` below) or by explicit
close counters (`ParallelSt` below). -/

/-- A node of the supervision tree (`f`): its name, its ordered children,
its stop/done hook ids, and its three monotone flags. -/
inductive Node where
  | mk (name : String) (subs : List Node) (stopHooks : List Nat) (doneHooks : List Nat)
      (erred : Bool) (done : Bool) (stopped : Bool)

/-- Field accessor: `f.name`. -/
def Node.name : Node → String
  | .mk x _ _ _ _ _ _ => x

/-- Field accessor: `f.subs`. -/
def Node.subs : Node → List Node
  | .mk _ x _ _ _ _ _ => x

/-- Field accessor: the ids of the hooks on the `stopEvent` list. -/
def Node.stopHooks : Node → List Nat
  | .mk _ _ x _ _ _ _ => x

/-- Field accessor: the ids of the hooks on the `doneEvent` list. -/
def Node.doneHooks : Node → List Nat
  | .mk _ _ _ x _ _ _ => x

/-- Field accessor: `f.erred`. -/
def Node.erred : Node → Bool
  | .mk _ _ _ _ x _ _ => x

/-- Field accessor: `f.done`. -/
def Node.done : Node → Bool
  | .mk _ _ _ _ _ x _ => x

/-- Field accessor: `f.stopped`. -/
def Node.stopped : Node → Bool
  | .mk _ _ _ _ _ _ x => x

/-- Model of `newf(name)`: fresh node, empty children and hook lists, all flags
false. -/
def newf (name : String) : Node :=
  .mk name [] [] [] false false false

/-! ### The stop cascade (`f.stop`, lines 173–199)

`stop` (1) stores `stopped`, (2) loops `for i := len(subs)-1; i >= 0; i--`
calling `subs[i].stop()` — newest child first, each child fully stopped
(its whole trace emitted) before the next — (3) runs the node's own
`stopEvent` hooks, (4) blocks on `signalC`, (5) closes `errC`,
(6) waits on the WaitGroup, (7) stores `done`. The model emits one trace
event per observable action, in execution order. -/

/-- One observable action of the stop cascade, tagged with the name of the
node performing it. -/
inductive StopEv where
  | markStopped (name : String)
  | stopHook (name : String) (hook : Nat)
  | waitSignal (name : String)
  | closeErrC (name : String)
  | wgWait (name : String)
  | markDone (name : String)
deriving DecidableEq, Repr

mutual

/-- Model of `f.stop()` as the trace of its observable actions, in execution
order: mark stopped, stop every child (newest first, recursively), run own
stop hooks in slice order, block on `signalC`, close `errC`, wait on the
WaitGroup, mark done. -/
def Node.stopTrace : Node → List StopEv
  | .mk name subs sh _ _ _ _ =>
    .markStopped name ::
      (stopTraceSubs subs ++ sh.map (StopEv.stopHook name) ++
        [.waitSignal name, .closeErrC name, .wgWait name, .markDone name])

/-- The `for i := len(subs)-1; i >= 0; i--` loop of `f.stop`: the children
that come later in the list (appended more recently) are stopped, in
reverse order, before the head. -/
def stopTraceSubs : List Node → List StopEv
  | [] => []
  | c :: cs => stopTraceSubs cs ++ Node.stopTrace c

end

/-! ### Scheduling a child (`f.run`, lines 239–275)

The synchronous effect of `f.run` on the parent's state: if `erred` or
`done` is set the call returns at once (nothing allocated or appended,
nothing reported); otherwise a child named
`fmt.Sprintf("%s.%d", f.name, len(f.subs)+1)` is created by `newf` and
appended to `subs`. The launched body and the wait are modelled
separately (`wrappedRun` above). -/

/-- The parent-state effect of one `f.run(ctx, runner)` call. -/
def Node.run1 (n : Node) : Node :=
  match n with
  | .mk name subs sh dh erred done stopped =>
    if erred || done then n
    else .mk name (subs ++ [newf (name ++ "." ++ toString (subs.length + 1))]) sh dh erred done stopped

/-! ### Fault-and-abort (`f.Error`, lines 133–166)

`Error(err)` returns at once if `f.done` is set, then returns at once if
`err == nil`; otherwise it stores `erred` on the node, walks the `parent`
chain storing `erred` on every ancestor, and finally `panic(err)`.
The state needed is the node's own `done`/`erred` flags and the `erred`
flags of its ancestors along the parent chain (nearest parent first);
the returned `Option` is the panic payload (`none` = returned normally,
no panic). -/

/-- The slice of mutable state that `f.Error` reads and writes: this
node's `done` and `erred` flags, and the `erred` flags of its ancestors,
nearest parent first (`[]` for the root). -/
structure ErrCtx where
  selfDone : Bool
  selfErred : Bool
  ancErred : List Bool
deriving DecidableEq, Repr

/-- The `for` loop of `f.Error`: walk the parent chain, storing `true`
into each ancestor's `erred` flag, until `parent == nil`. -/
def markAncestors : List Bool → List Bool
  | [] => []
  | _ :: rest => true :: markAncestors rest

/-- Model of `f.Error(err)`: no-op when already done or when `err` is nil;
otherwise set `erred` here and on every ancestor and `panic(err)`.
Returns the new state and the panic payload, if any. -/
def fError (s : ErrCtx) (err : Option Nat) : ErrCtx × Option Nat :=
  if s.selfDone then (s, none)
  else
    match err with
    | none => (s, none)
    | some e =>
      ({ s with selfErred := true, ancErred := markAncestors s.ancErred }, some e)

/-! ### Background promotion (`f.Parallel`, lines 117–128)

Under the node's lock: if `f.parallel` is already set, return; otherwise
`close(f.parallelC)` and set `f.parallel`. `closes` counts executions of
the `close` statement (a second `close` of the same channel would be a
runtime fault, so the model must keep it at most 1). -/

/-- The state `f.Parallel` touches: the `parallel` flag and the number of
times `close(parallelC)` has executed. -/
structure ParallelSt where
  parallel : Bool
  closes : Nat
deriving DecidableEq, Repr

/-- The `parallel`-related state of `newf`: flag clear, channel never
closed. -/
def newParallelSt : ParallelSt := ⟨false, 0⟩

/-- Model of `f.Parallel()`. -/
def fParallel (s : ParallelSt) : ParallelSt :=
  if s.parallel then s else { parallel := true, closes := s.closes + 1 }

/-! ## Process-level orchestration (`Run`, the entry point)

The fault-log goroutine reads `f.errC` until it closes; for every fault
it logs, and inside a `sync.Once` sets `exitCode = 1` and
`close(errd)` — so only the first fault flips the exit code and fires the
shutdown trigger. After the tree winds down, the finalisers run in order:
each one returning a non-nil error sets `exitCode = 1` (and is logged).
`os.Exit(exitCode)` ends the process. The model folds over the sequence
of faults received and the finaliser results. -/

/-- The fault-log goroutine's state: the shared `exitCode`, whether the
`sync.Once` has been used, how many times `close(errd)` has executed,
and how many faults have been logged. -/
structure FaultLoopSt where
  exitCode : Nat
  onceUsed : Bool
  fires : Nat
  logs : Nat
deriving DecidableEq, Repr

/-- One iteration of the fault-log loop body for a received fault: the
fault is always logged; `once.Do` runs its body only on first use,
setting the exit code to 1 and closing `errd`. -/
def faultLogStep (s : FaultLoopSt) (_fault : Fault) : FaultLoopSt :=
  if s.onceUsed then { s with logs := s.logs + 1 }
  else ⟨1, true, s.fires + 1, s.logs + 1⟩

/-- The whole fault-log loop over the faults received on `f.errC`, in
arrival order, starting from exit code 0, `Once` unused, trigger never
fired, nothing logged. -/
def faultLogLoop (faults : List Fault) : FaultLoopSt :=
  faults.foldl faultLogStep ⟨0, false, 0, 0⟩

/-- The finaliser loop of `Run`: each finaliser's result (`none` = nil
error) is inspected; an error sets the exit code to 1 and the loop
continues with the next finaliser. -/
def runFinalisers (code : Nat) (results : List (Option Nat)) : Nat :=
  results.foldl (fun c r => match r with | none => c | some _ => 1) code

/-- The exit status passed to `os.Exit`: the fault-log loop's final exit
code, then the finaliser loop on top of it. -/
def processExitCode (faults : List Fault) (finals : List (Option Nat)) : Nat :=
  runFinalisers (faultLogLoop faults).exitCode finals


/-- The naming invariant of §8: each child of `n` is named
`n.name + "." + (1-based position among the children)`. -/
def namedOk (n : Node) : Prop :=
  ∀ i : Nat, (hi : i < n.subs.length) →
    (n.subs.get ⟨i, hi⟩).name = n.name ++ "." ++ toString (i + 1)

end Foundation

namespace Tick

open Foundation

/-! ## The `tick` package's once-guarded hook registry

`tick.eventHooks` wraps a `foundation.F` and two `sync.Once` fields
(`doneOnce`, `stopOnce`). As written, *both* `Done` and `Stop` run their
registration inside `stopOnce.Do` (`doneOnce` is never used), so across
the two methods combined only the first call ever reaches the underlying
`F`'s registry. The state records the `stopOnce` guard and what has been
registered on the underlying `F`'s two lists. -/

/-- The state of a `tick.eventHooks` value together with the underlying
`F`'s registry: `stopOnceUsed` is the `stopOnce` guard, `fHooks` the
underlying `eventHooks` the registrations land on. -/
structure TickHooks where
  stopOnceUsed : Bool
  fHooks : EventHooksMap
deriving DecidableEq, Repr

/-- Model of `tick.newEventHooks(f)`: guard unused; the underlying registry is
whatever `f` currently holds. -/
def newTickHooks (fHooks : EventHooksMap) : TickHooks :=
  ⟨false, fHooks⟩

/-- Model of `tick.eventHooks.Done(fns...)`: runs `e.f.On().Done(fns...)`
inside `stopOnce.Do`. -/
def TickHooks.Done (e : TickHooks) (fns : List HookSpec) : TickHooks :=
  if e.stopOnceUsed then e
  else ⟨true, e.fHooks.Done fns⟩

/-- Model of `tick.eventHooks.Stop(fns...)`: runs `e.f.On().Stop(fns...)`
inside `stopOnce.Do` — the same guard as `Done`. -/
def TickHooks.Stop (e : TickHooks) (fns : List HookSpec) : TickHooks :=
  if e.stopOnceUsed then e
  else ⟨true, e.fHooks.Stop fns⟩

/-- One registration call made through the registry returned by
`tick.Runner.On()`. -/
inductive HookCall where
  | doneCall (fns : List HookSpec)
  | stopCall (fns : List HookSpec)
deriving DecidableEq, Repr

/-- Dispatch one call. -/
def applyCall (e : TickHooks) : HookCall → TickHooks
  | .doneCall fns => e.Done fns
  | .stopCall fns => e.Stop fns

/-- A whole sequence of `Done`/`Stop` calls, in order. -/
def applyCalls (e : TickHooks) (cs : List HookCall) : TickHooks :=
  cs.foldl applyCall e

/-! ## Backoff arithmetic (`exponentBase2`, `ExponentialBackoff`)

`exponentBase2(a uint8) uint` returns `(1 << a) >> 1` computed in `uint`
(64 bits). Go shifts by `n` behave as `n` single-bit shifts, so a left
shift is multiplication reduced mod `2^64` and a right shift is division.
`ExponentialBackoff(scalar)` (without jitter) returns
`scalar * time.Duration(exponentBase2(attempt))`: the `uint` is converted
to the signed 64-bit `time.Duration` and multiplied with `int64`
wrap-around. -/

/-- Go `uint` (64-bit) left shift: multiply and reduce mod `2^64`. -/
def uintShl (x n : Nat) : Nat := (x * 2 ^ n) % 2 ^ 64

/-- Go `uint` (64-bit) logical right shift. -/
def uintShr (x n : Nat) : Nat := x / 2 ^ n

/-- Model of `exponentBase2(a)` = `(1 << a) >> 1` in `uint`. -/
def exponentBase2 (a : Nat) : Nat := uintShr (uintShl 1 a) 1

/-- Reduce an integer into the signed 64-bit range by two's-complement
wrap-around. -/
def int64wrap (x : Int) : Int := (x + 2 ^ 63) % 2 ^ 64 - 2 ^ 63

/-- Go conversion `time.Duration(v)` of `v : uint`: reinterpret the 64-bit
pattern as a signed 64-bit count of nanoseconds. -/
def uintToDuration (v : Nat) : Int := int64wrap v

/-- The wait duration computed by the no-jitter `ExponentialBackoff`
closure: `scalar * time.Duration(exponentBase2(attempt))`, with `int64`
wrap-around multiplication. -/
def exponentialBackoffWait (scalar : Int) (attempt : Nat) : Int :=
  int64wrap (scalar * uintToDuration (exponentBase2 attempt))

end Tick

namespace Foundation

/-! ## Helper lemmas -/

/-- Walking the ancestor chain sets every flag to `true` and keeps the
chain length. -/
theorem markAncestors_spec (l : List Bool) :
    (∀ b ∈ markAncestors l, b = true) ∧ (markAncestors l).length = l.length := by
  induction l with
  | nil => simp [markAncestors]
  | cons x xs ih =>
    refine ⟨?_, by simpa [markAncestors] using ih.2⟩
    intro b hb
    rcases (by simpa [markAncestors] using hb) with h | h
    · exact h
    · exact ih.1 b h

end Foundation

namespace Tick

open Foundation

/-- Once the `stopOnce` guard has been used, any further sequence of
calls through the `tick` hook registry leaves the state untouched. -/
theorem applyCalls_of_used (e : TickHooks) (h : e.stopOnceUsed = true) :
    ∀ cs : List HookCall, applyCalls e cs = e := by
  intro cs
  induction cs with
  | nil => rfl
  | cons c cs ih =>
    have hc : applyCall e c = e := by
      cases c with
      | doneCall fns => simp [applyCall, TickHooks.Done, h]
      | stopCall fns => simp [applyCall, TickHooks.Stop, h]
    simpa [applyCalls, hc] using ih

/-- After the very first call (`Done` or `Stop`) the guard is used. -/
theorem applyCall_first_uses_guard (f0 : EventHooksMap) (c : HookCall) :
    (applyCall (newTickHooks f0) c).stopOnceUsed = true := by
  cases c with
  | doneCall fns => simp [applyCall, TickHooks.Done, newTickHooks]
  | stopCall fns => simp [applyCall, TickHooks.Stop, newTickHooks]

end Tick

open Foundation Tick

/-- C8: `f.Parallel()` fires the background-promotion signal at most
once: on a fresh node the first call closes `parallelC` exactly once and
sets the flag; a call on a node already marked parallel changes nothing;
the operation is idempotent; and no sequence of calls ever executes
`close(parallelC)` more than once. -/
theorem parallel_fires_at_most_once :
    (∀ s : ParallelSt, fParallel (fParallel s) = fParallel s) ∧
    (∀ s : ParallelSt, s.parallel = true → fParallel s = s) ∧
    fParallel newParallelSt = ⟨true, 1⟩ ∧
    (∀ k : Nat, (fParallel^[k] newParallelSt).closes ≤ 1) := by
  have hset : ∀ s : ParallelSt, s.parallel = true → fParallel s = s := by
    intro s h
    simp [fParallel, h]
  refine ⟨?_, hset, by simp [fParallel, newParallelSt], ?_⟩
  · intro s
    by_cases h : s.parallel
    · simp [fParallel, h]
    · have h1 : fParallel s = ⟨true, s.closes + 1⟩ := by
        simp [fParallel, h]
      rw [h1]
      exact hset _ rfl
  · intro k
    have key : ∀ k : Nat, fParallel^[k] newParallelSt = newParallelSt ∨
        fParallel^[k] newParallelSt = ⟨true, 1⟩ := by
      intro k
      induction k with
      | zero => exact Or.inl rfl
      | succ k ih =>
        rw [Function.iterate_succ_apply']
        rcases ih with h | h
        · rw [h]
          exact Or.inr (by simp [fParallel, newParallelSt])
        · rw [h]
          exact Or.inr (hset _ rfl)
    rcases key k with h | h
    · rw [h]
      exact Nat.zero_le 1
    · rw [h]

/-- Witness for C8 at a concrete state that is already parallel. -/
theorem parallel_fires_at_most_once_witness :
    fParallel ⟨true, 1⟩ = ⟨true, 1⟩ :=
  parallel_fires_at_most_once.2.1 ⟨true, 1⟩ rfl

/-- C9: in the `tick` package the registry returned by `Runner.On()`
honours only the first registration call across `Done` and `Stop`
combined: both methods run inside the same `stopOnce` guard, so once the
guard is used every later `Done`/`Stop` call is a no-op that registers
nothing on the underlying `F`, and any call sequence on a fresh registry
has the same effect as its first call alone. -/
theorem tick_hooks_first_call_wins :
    (∀ (e : TickHooks) (fns : List HookSpec), e.stopOnceUsed = true →
      e.Done fns = e ∧ e.Stop fns = e) ∧
    (∀ (f0 : EventHooksMap) (c : HookCall) (cs : List HookCall),
      applyCalls (newTickHooks f0) (c :: cs) = applyCall (newTickHooks f0) c) := by
  constructor
  · intro e fns h
    constructor
    · simp [TickHooks.Done, h]
    · simp [TickHooks.Stop, h]
  · intro f0 c cs
    have h1 : applyCalls (newTickHooks f0) (c :: cs) =
        applyCalls (applyCall (newTickHooks f0) c) cs := rfl
    rw [h1]
    exact applyCalls_of_used _ (applyCall_first_uses_guard f0 c) cs

/-- Witness for C9 at a concrete used registry. -/
theorem tick_hooks_first_call_wins_witness :
    TickHooks.Done ⟨true, newEventHooks⟩ [⟨3, none⟩] = ⟨true, newEventHooks⟩ :=
  (tick_hooks_first_call_wins.1 ⟨true, newEventHooks⟩ [⟨3, none⟩] rfl).1

/-- C10: the backoff multiplier `exponentBase2` returns 0 at attempt 0
and `2^(a-1)` for attempts `1 <= a < 64`, but for attempts `a >= 64`
(still within the `uint8` argument range) the 64-bit shift produces 0,
so the no-jitter `ExponentialBackoff` wait duration is 0 for such
attempts instead of continuing to grow. -/
theorem exponentBase2_spec :
    exponentBase2 0 = 0 ∧
    (∀ a : Nat, 1 ≤ a → a < 64 → exponentBase2 a = 2 ^ (a - 1)) ∧
    (∀ a : Nat, 64 ≤ a → a < 256 → exponentBase2 a = 0) ∧
    (∀ (scalar : Int) (a : Nat), 64 ≤ a → a < 256 →
      exponentialBackoffWait scalar a = 0) := by
  have hz : ∀ a : Nat, 64 ≤ a → exponentBase2 a = 0 := by
    intro a ha
    obtain ⟨c, hc⟩ := pow_dvd_pow 2 ha
    show uintShr (uintShl 1 a) 1 = 0
    simp only [uintShl, uintShr, one_mul]
    rw [hc, Nat.mul_mod_right, Nat.zero_div]
  refine ⟨by norm_num [exponentBase2, uintShl, uintShr], ?_, fun a ha _ => hz a ha, ?_⟩
  · intro a h1 h64
    have hlt : (2 : Nat) ^ a < 2 ^ 64 := Nat.pow_lt_pow_right (by norm_num) h64
    have hmod : (2 ^ a) % 2 ^ 64 = 2 ^ a := Nat.mod_eq_of_lt hlt
    have hdiv : (2 : Nat) ^ a / 2 ^ 1 = 2 ^ (a - 1) := Nat.pow_div h1 (by norm_num)
    show uintShr (uintShl 1 a) 1 = 2 ^ (a - 1)
    simp only [uintShl, uintShr, one_mul]
    rw [hmod, hdiv]
  · intro scalar a ha _
    have h0 : exponentBase2 a = 0 := hz a ha
    simp [exponentialBackoffWait, uintToDuration, int64wrap, h0]

/-- Witness for C10 at concrete attempts 5 and 70. -/
theorem exponentBase2_spec_witness :
    exponentBase2 5 = 16 ∧ exponentBase2 70 = 0 ∧
    exponentialBackoffWait 100 70 = 0 := by
  refine ⟨?_, ?_, ?_⟩
  · have h := exponentBase2_spec.2.1 5 (by norm_num) (by norm_num)
    simpa using h
  · exact exponentBase2_spec.2.2.1 70 (by norm_num) (by norm_num)
  · exact exponentBase2_spec.2.2.2 100 70 (by norm_num) (by norm_num)

/-- After the `sync.Once` has been used, further fault-log iterations
only log: exit code, guard and fire count stay as they are. -/
theorem faultLogStep_foldl_used (fs : List Fault) :
    ∀ s : FaultLoopSt, s.onceUsed = true →
      fs.foldl faultLogStep s = ⟨s.exitCode, true, s.fires, s.logs + fs.length⟩ := by
  induction fs with
  | nil =>
    intro s h
    cases s with
    | mk e o fi lo =>
      simp at h
      simp [h]
  | cons f fs ih =>
    intro s h
    have h1 : faultLogStep s f = { s with logs := s.logs + 1 } := by
      simp [faultLogStep, h]
    rw [List.foldl_cons, h1, ih _ (by simp [h])]
    simp
    omega

/-- The finaliser loop returns 0 exactly when it started at 0 and every
finaliser returned a nil error. -/
theorem runFinalisers_eq_zero (rs : List (Option Nat)) :
    ∀ c : Nat, runFinalisers c rs = 0 ↔ c = 0 ∧ ∀ r ∈ rs, r = none := by
  induction rs with
  | nil => simp [runFinalisers]
  | cons r rs ih =>
    intro c
    cases r with
    | none =>
      have h1 : runFinalisers c (none :: rs) = runFinalisers c rs := rfl
      rw [h1, ih c]
      simp
    | some v =>
      have h1 : runFinalisers c (some v :: rs) = runFinalisers 1 rs := rfl
      rw [h1, ih 1]
      simp

/-- Closed form of the fault-log loop: no faults leave the initial state;
otherwise the first fault sets exit code 1 and fires the trigger once,
and every fault (first or later) is logged. -/
theorem faultLogLoop_closed_form (fs : List Fault) :
    faultLogLoop fs = if fs = [] then ⟨0, false, 0, 0⟩ else ⟨1, true, 1, fs.length⟩ := by
  cases fs with
  | nil => rfl
  | cons f fs =>
    have h1 : faultLogStep ⟨0, false, 0, 0⟩ f = ⟨1, true, 1, 1⟩ := by
      simp [faultLogStep]
    have h2 : faultLogLoop (f :: fs) = fs.foldl faultLogStep ⟨1, true, 1, 1⟩ := by
      simp [faultLogLoop, h1]
    rw [h2, faultLogStep_foldl_used fs ⟨1, true, 1, 1⟩ rfl]
    simp [Nat.add_comm]

/-- C4: the process-level `Run` exits with status 0 exactly when no fault
arrived on the root's error channel and no finaliser returned an error;
the first fault flips the status and fires the shutdown trigger exactly
once; later faults are still logged (every received fault is) but never
re-fire the trigger. -/
theorem run_exit_status_spec (faults : List Fault) (finals : List (Option Nat)) :
    (processExitCode faults finals = 0 ↔ faults = [] ∧ ∀ r ∈ finals, r = none) ∧
    (faultLogLoop faults).fires = (if faults = [] then 0 else 1) ∧
    (faultLogLoop faults).exitCode = (if faults = [] then 0 else 1) ∧
    (faultLogLoop faults).logs = faults.length := by
  have hcode : (faultLogLoop faults).exitCode = (if faults = [] then 0 else 1) := by
    rw [faultLogLoop_closed_form]
    by_cases h : faults = [] <;> simp [h]
  refine ⟨?_, ?_, hcode, ?_⟩
  · have h1 : processExitCode faults finals =
        runFinalisers (faultLogLoop faults).exitCode finals := rfl
    rw [h1, runFinalisers_eq_zero finals, hcode]
    by_cases h : faults = [] <;> simp [h]
  · rw [faultLogLoop_closed_form]
    by_cases h : faults = [] <;> simp [h]
  · rw [faultLogLoop_closed_form]
    by_cases h : faults = [] <;> simp [h]

/-- C3: `f.Error(err)` is a no-op when the node has already finished or
`err` is nil — the state (own flags and every ancestor's flag) is
returned unchanged and no panic is raised, so no fault can be recorded;
otherwise it sets `erred` on the node and on every ancestor (the chain
keeps its length) and raises `err` as a panic, aborting the current body
non-locally. -/
theorem error_spec :
    (∀ s : ErrCtx, fError s none = (s, none)) ∧
    (∀ (s : ErrCtx) (err : Option Nat), s.selfDone = true → fError s err = (s, none)) ∧
    (∀ (s : ErrCtx) (e : Nat), s.selfDone = false →
      (fError s (some e)).1.selfErred = true ∧
      (∀ b ∈ (fError s (some e)).1.ancErred, b = true) ∧
      ((fError s (some e)).1.ancErred.length = s.ancErred.length ∧
        (fError s (some e)).1.selfDone = s.selfDone) ∧
      (fError s (some e)).2 = some e) := by
  refine ⟨?_, ?_, ?_⟩
  · intro s
    by_cases h : s.selfDone <;> simp [fError, h]
  · intro s err h
    cases err <;> simp [fError, h]
  · intro s e h
    have h1 : fError s (some e) =
        ({ s with selfErred := true, ancErred := markAncestors s.ancErred }, some e) := by
      simp [fError, h]
    rw [h1]
    exact ⟨rfl, (markAncestors_spec s.ancErred).1, ⟨(markAncestors_spec s.ancErred).2, rfl⟩, rfl⟩

/-- Witness for C3: a finished node ignores an error, a live node with
two not-yet-errored ancestors marks everything and panics. -/
theorem error_spec_witness :
    fError ⟨true, false, [false, false]⟩ (some 7) = (⟨true, false, [false, false]⟩, none) ∧
    (fError ⟨false, false, [false, false]⟩ (some 7)).1.selfErred = true ∧
    (fError ⟨false, false, [false, false]⟩ (some 7)).2 = some 7 := by
  refine ⟨error_spec.2.1 ⟨true, false, [false, false]⟩ (some 7) rfl, ?_, ?_⟩
  · exact (error_spec.2.2 ⟨false, false, [false, false]⟩ 7 rfl).1
  · exact (error_spec.2.2 ⟨false, false, [false, false]⟩ 7 rfl).2.2.2

/-- C6: when a node is already errored or finished, `f.run` refuses to
schedule: nothing is allocated or appended, the whole node state is
returned unchanged, and the refusal is silent (the function just
returns); a `Run` call with any number of runners likewise changes
nothing. -/
theorem run_refused_when_erred_or_finished (n : Node)
    (h : n.erred = true ∨ n.done = true) :
    n.run1 = n ∧ ∀ k : Nat, Node.run1^[k] n = n := by
  have h1 : n.run1 = n := by
    cases n with
    | mk name subs sh dh erred done stopped =>
      rcases h with h | h
      · simp [Node.erred] at h
        simp [Node.run1, h]
      · simp [Node.done] at h
        simp [Node.run1, h]
  refine ⟨h1, ?_⟩
  intro k
  induction k with
  | zero => rfl
  | succ k ih => rw [Function.iterate_succ_apply', ih, h1]

/-- Witness for C6: an errored leaf refuses a new child. -/
theorem run_refused_witness :
    Node.run1 (.mk "app" [] [] [] true false false) = .mk "app" [] [] [] true false false :=
  (run_refused_when_erred_or_finished (.mk "app" [] [] [] true false false) (Or.inl rfl)).1

/-- C5: every child takes the name
`parent.name + "." + (1-based position among the parent's children)` at
the moment `f.run` appends it, the invariant holds for a fresh node and
is preserved by every further `run`, and scheduling never renames the
node or its existing children (names are stable once assigned). -/
theorem child_naming :
    (∀ s : String, namedOk (newf s)) ∧
    (∀ n : Node, namedOk n → namedOk n.run1) ∧
    (∀ n : Node, n.run1.name = n.name ∧ n.run1.subs.take n.subs.length = n.subs) := by
  refine ⟨?_, ?_, ?_⟩
  · intro s i hi
    simp [newf, Node.subs] at hi
  · intro n h
    cases n with
    | mk name subs sh dh erred done stopped =>
      by_cases hguard : erred || done
      · have h1 : Node.run1 (.mk name subs sh dh erred done stopped) =
            .mk name subs sh dh erred done stopped := by
          simp [Node.run1, hguard]
        rw [h1]
        exact h
      · have h1 : Node.run1 (.mk name subs sh dh erred done stopped) =
            .mk name (subs ++ [newf (name ++ "." ++ toString (subs.length + 1))])
              sh dh erred done stopped := by
          simp [Node.run1, hguard]
        rw [h1]
        intro i hi
        simp [Node.subs, Node.name] at hi ⊢
        rcases Nat.lt_or_ge i subs.length with hlt | hge
        · rw [List.getElem_append_left hlt]
          have := h i (by simpa [Node.subs] using hlt)
          simpa [Node.subs, Node.name, List.get_eq_getElem] using this
        · have hieq : i = subs.length := by omega
          subst hieq
          rw [List.getElem_append_right (Nat.le_refl _)]
          simp [newf, Node.name]
  · intro n
    cases n with
    | mk name subs sh dh erred done stopped =>
      by_cases hguard : erred || done
      · have h1 : Node.run1 (.mk name subs sh dh erred done stopped) =
            .mk name subs sh dh erred done stopped := by
          simp [Node.run1, hguard]
        rw [h1]
        exact ⟨rfl, by simp [Node.subs]⟩
      · have h1 : Node.run1 (.mk name subs sh dh erred done stopped) =
            .mk name (subs ++ [newf (name ++ "." ++ toString (subs.length + 1))])
              sh dh erred done stopped := by
          simp [Node.run1, hguard]
        rw [h1]
        refine ⟨rfl, ?_⟩
        simp [Node.subs, Node.name, List.take_left]

/-- Witness for C5: the root "app" scheduling twice yields children
"app.1" and "app.2", and a child scheduling once yields "app.1.1". -/
theorem child_naming_witness :
    namedOk ((newf "app").run1.run1) ∧
    ((newf "app").run1.run1).subs.map Node.name = ["app.1", "app.2"] ∧
    ((newf "app.1").run1).subs.map Node.name = ["app.1.1"] := by
  refine ⟨child_naming.2.1 _ (child_naming.2.1 _ (child_naming.1 "app")), ?_, ?_⟩
  · rfl
  · rfl

/-- C7: every abort recovered at a node boundary becomes a typed fault on
that node's error channel and never escapes as a raw panic: a runner-body
abort becomes a `RuntimeError` whose cause is the raised error, or the
raised non-error payload wrapped as `PanicError`; a hook abort becomes a
`CleanupError` (with the same cause discipline); the wrapped epilogue
always closes the signal channel; and a faulting hook never prevents the
remaining hooks in the list from running — the invocation trace of a hook
list is always the whole list, and its faults are exactly the
`CleanupError`s of its panicking hooks, in list order. -/
theorem aborts_become_typed_faults :
    (∀ (e : Nat) (dh : List HookSpec),
      wrappedRun (.panics (.err e)) dh =
        (Fault.runtimeError (.err e) :: (runEventHooks dh).1, (runEventHooks dh).2, true)) ∧
    (∀ (v : Nat) (dh : List HookSpec),
      wrappedRun (.panics (.val v)) dh =
        (Fault.runtimeError (.panicError v) :: (runEventHooks dh).1, (runEventHooks dh).2, true)) ∧
    (∀ (body : BodyOutcome) (dh : List HookSpec), (wrappedRun body dh).2.2 = true) ∧
    (∀ hooks : List HookSpec, (runEventHooks hooks).2 = hooks.map HookSpec.id) ∧
    (∀ hooks : List HookSpec, (runEventHooks hooks).1 = hooks.filterMap hookFault) := by
  refine ⟨?_, ?_, ?_, ?_, ?_⟩
  · intro e dh
    rfl
  · intro v dh
    rfl
  · intro body dh
    rfl
  · intro hooks
    induction hooks with
    | nil => rfl
    | cons h rest ih =>
      cases hp : h.panics with
      | none => simp [runEventHooks, runEventHook, hp, ih]
      | some p => cases p <;> simp [runEventHooks, runEventHook, hp, ih]
  · intro hooks
    induction hooks with
    | nil => rfl
    | cons h rest ih =>
      cases hp : h.panics with
      | none => simp [runEventHooks, runEventHook, hookFault, hp, ih]
      | some p => cases p <;> simp [runEventHooks, runEventHook, hookFault, hp, ih]

/-- Each child's whole stop trace occurs contiguously inside the loop part
of its parent's stop trace. -/
theorem stopTraceSubs_single (l : List Node) :
    ∀ (i : Nat) (hi : i < l.length), ∃ a b,
      stopTraceSubs l = a ++ (l.get ⟨i, hi⟩).stopTrace ++ b := by
  induction l with
  | nil =>
    intro i hi
    simp at hi
  | cons c cs ih =>
    intro i hi
    cases i with
    | zero =>
      refine ⟨stopTraceSubs cs, [], ?_⟩
      simp [stopTraceSubs]
    | succ i =>
      obtain ⟨a, b, hab⟩ := ih i (by simpa using hi)
      refine ⟨a, b ++ c.stopTrace, ?_⟩
      simp [stopTraceSubs, hab]

/-- In the loop part of a parent's stop trace, the stop trace of a
later-appended (more recently created) child occurs entirely before the
stop trace of any earlier sibling. -/
theorem stopTraceSubs_pair (l : List Node) :
    ∀ (i j : Nat) (hij : i < j) (hj : j < l.length), ∃ a b c,
      stopTraceSubs l = a ++ (l.get ⟨j, hj⟩).stopTrace ++ b ++
        (l.get ⟨i, Nat.lt_trans hij hj⟩).stopTrace ++ c := by
  induction l with
  | nil =>
    intro i j hij hj
    simp at hj
  | cons c0 cs ih =>
    intro i j hij hj
    cases i with
    | zero =>
      cases j with
      | zero => omega
      | succ j =>
        obtain ⟨a, b, hab⟩ := stopTraceSubs_single cs j (by simpa using hj)
        refine ⟨a, b, [], ?_⟩
        simp [stopTraceSubs, hab]
    | succ i =>
      cases j with
      | zero => omega
      | succ j =>
        obtain ⟨a, b, c, habc⟩ := ih i j (by omega) (by simpa using hj)
        refine ⟨a, b, c ++ c0.stopTrace, ?_⟩
        simp [stopTraceSubs, habc]

/-- C2: the stop cascade of a node tears down the entire subtree of each
child — including that child's own stop hooks — strictly before the
node's own stop hooks run; among siblings the most-recently-created
child's subtree is torn down first; and only after its own stop hooks
does the node block on the completion signal and then close its error
channel (then join helpers and mark done). -/
theorem stop_teardown_order :
    (∀ (n : Node) (i : Nat) (hi : i < n.subs.length), ∃ a b,
      n.stopTrace = StopEv.markStopped n.name ::
        (a ++ (n.subs.get ⟨i, hi⟩).stopTrace ++ b ++
          n.stopHooks.map (StopEv.stopHook n.name) ++
          [StopEv.waitSignal n.name, StopEv.closeErrC n.name,
            StopEv.wgWait n.name, StopEv.markDone n.name])) ∧
    (∀ (n : Node) (i j : Nat) (hij : i < j) (hj : j < n.subs.length), ∃ a b c,
      n.stopTrace = StopEv.markStopped n.name ::
        (a ++ (n.subs.get ⟨j, hj⟩).stopTrace ++ b ++
          (n.subs.get ⟨i, Nat.lt_trans hij hj⟩).stopTrace ++ c ++
          n.stopHooks.map (StopEv.stopHook n.name) ++
          [StopEv.waitSignal n.name, StopEv.closeErrC n.name,
            StopEv.wgWait n.name, StopEv.markDone n.name])) := by
  constructor
  · intro n i hi
    cases n with
    | mk name subs sh dh e d st =>
      obtain ⟨a, b, hab⟩ := stopTraceSubs_single subs i (by simpa [Node.subs] using hi)
      refine ⟨a, b, ?_⟩
      simp only [Node.stopTrace, Node.name, Node.subs, Node.stopHooks] at hab ⊢
      rw [hab]
  · intro n i j hij hj
    cases n with
    | mk name subs sh dh e d st =>
      obtain ⟨a, b, c, habc⟩ :=
        stopTraceSubs_pair subs i j hij (by simpa [Node.subs] using hj)
      refine ⟨a, b, c, ?_⟩
      simp only [Node.stopTrace, Node.name, Node.subs, Node.stopHooks] at habc ⊢
      rw [habc]

/-- Witness for C2: a root with two children and one stop hook — the
newer child "app.2" is torn down entirely before "app.1", both before the
root's own stop hook, which precedes the wait on the completion signal
and the closing of the error channel. -/
theorem stop_teardown_order_witness :
    ∃ a b c,
      (Node.mk "app" [newf "app.1", newf "app.2"] [5] [] false false false).stopTrace =
        StopEv.markStopped "app" ::
          (a ++ (newf "app.2").stopTrace ++ b ++ (newf "app.1").stopTrace ++ c ++
            List.map (StopEv.stopHook "app") [5] ++
            [StopEv.waitSignal "app", StopEv.closeErrC "app",
              StopEv.wgWait "app", StopEv.markDone "app"]) :=
  stop_teardown_order.2
    (Node.mk "app" [newf "app.1", newf "app.2"] [5] [] false false false)
    0 1 (by decide) (by decide)

/-- C1: evaluation of the hook machinery at a two-hook registry.
`f.runEventHooks` ranges over `slices.Values(f.hooks.get(event))`, i.e.
front to back, so for both the stop list and the done list two callbacks
registered in the order first 10 (resp. 20) then 11 (resp. 21) are
invoked as `[10, 11]` (resp. `[20, 21]`) — registration order, not the
reverse-of-registration order `[11, 10]` (resp. `[21, 20]`) that the
specification states as the intended contract. -/
theorem hooks_execute_in_registration_order :
    ((runEventHooks (((newEventHooks.Stop [⟨10, none⟩]).Stop [⟨11, none⟩]).get .stopEvent)).2
        = [10, 11] ∧ ([10, 11] : List Nat) ≠ [11, 10]) ∧
    ((runEventHooks (((newEventHooks.Done [⟨20, none⟩]).Done [⟨21, none⟩]).get .doneEvent)).2
        = [20, 21] ∧ ([20, 21] : List Nat) ≠ [21, 20]) :=
  ⟨⟨rfl, by decide⟩, ⟨rfl, by decide⟩⟩
